import Mathlib

/-!
Shallow embedding of the FXMarketSim backend (src/backend/src) in Lean 4.

Modelling conventions:
* Rust `f64` values are modelled as exact rationals (`ℚ`); decimal literals of
  the source are taken at their decimal value.  The claims under study are
  order-theoretic / structural, not about rounding.
* `BTreeMap<OrderedFloat<f64>, Vec<Order>>` is modelled as an association list
  `List (ℚ × List Order)` kept sorted by key in strictly ascending order (the
  BTreeMap iteration order); `HashMap` is modelled as an association list with
  first-match lookup.
* `Uuid::new_v4()` (fresh random ids) and `Utc::now()` (wall clock) are
  nondeterministic inputs; they are passed in as explicit parameters where the
  result depends on them and fixed to `0` where nothing reads them.
* Every random draw (`rand::thread_rng`) is an explicit oracle parameter.
* Rust panics are modelled as a dedicated error constructor, distinct from the
  `anyhow` error return.
-/

/-- `OrderSide` from orderbook.rs. -/
inductive OrderSide where
  | Buy
  | Sell
deriving DecidableEq, Repr

/-- `OrderType` from orderbook.rs. -/
inductive OrderType where
  | Market
  | Limit
  | Stop
  | StopLimit
deriving DecidableEq, Repr

/-- `TradeType` from market.rs. -/
inductive TradeType where
  | Market
  | Limit
  | Stop
deriving DecidableEq, Repr

/-- `Order` from orderbook.rs (`id : Uuid` modelled as `Nat`,
`timestamp : DateTime<Utc>` modelled as `Int` seconds). -/
structure Order where
  id : Nat
  symbol : String
  side : OrderSide
  amount : ℚ
  price : ℚ
  timestamp : Int
  participant_id : String
  order_type : OrderType
deriving DecidableEq, Repr

/-- `Trade` from market.rs.  The randomly generated trade id and the wall-clock
timestamp are fixed to `0` (nothing in the embedded code reads them back). -/
structure Trade where
  id : Nat
  symbol : String
  buyer_id : String
  seller_id : String
  price : ℚ
  volume : ℚ
  timestamp : Int
  trade_type : TradeType
deriving DecidableEq, Repr

/-- `OrderBook` from orderbook.rs.  `bids` and `asks` are price-level maps,
kept as lists sorted by strictly ascending price (the `BTreeMap` order). -/
structure OrderBook where
  symbol : String
  bids : List (ℚ × List Order)
  asks : List (ℚ × List Order)
  last_trade_price : ℚ
  total_volume : ℚ
deriving DecidableEq, Repr

/-- Association-list lookup: first entry with the given key
(models `HashMap::get` / `BTreeMap::get`). -/
def lookupA {κ α : Type} [DecidableEq κ] : List (κ × α) → κ → Option α
  | [], _ => none
  | (k, v) :: rest, key => if key = k then some v else lookupA rest key

/-- Association-list update of the first entry with the given key
(models in-place mutation through `get_mut`). -/
def updateA {κ α : Type} [DecidableEq κ] : List (κ × α) → κ → α → List (κ × α)
  | [], _, _ => []
  | (k, v) :: rest, key, v' =>
    if key = k then (k, v') :: rest else (k, v) :: updateA rest key v'

/-- Association-list insert-or-overwrite (models `HashMap::insert`). -/
def insertA {κ α : Type} [DecidableEq κ] : List (κ × α) → κ → α → List (κ × α)
  | [], key, v' => [(key, v')]
  | (k, v) :: rest, key, v' =>
    if key = k then (k, v') :: rest else (k, v) :: insertA rest key v'

/-- `OrderBook::get_best_bid`: largest bid key (last key of the
ascending-sorted level list). -/
def get_best_bid (book : OrderBook) : Option ℚ :=
  (book.bids.map Prod.fst).getLast?

/-- `OrderBook::get_best_ask`: smallest ask key (first key of the
ascending-sorted level list). -/
def get_best_ask (book : OrderBook) : Option ℚ :=
  (book.asks.map Prod.fst).head?

/-- The inner loop of `process_market_order` over one price level's FIFO queue
(orderbook.rs lines 80-112 for the Buy side, 135-167 for Sell).  For each
resting order, while the incoming remainder is positive, a trade of
`min remaining resting.amount` is emitted at the level price; resting orders
whose amount drops to `≤ 0` are removed, the rest keep their queue position.
Returns (emitted trades, surviving queue, remaining incoming amount).
`taker_buys = true` means the incoming order is a Buy matching resting asks. -/
def fill_level (sym : String) (taker_buys : Bool) (taker_id : String) (price : ℚ) :
    ℚ → List Order → List Trade × List Order × ℚ
  | remaining, [] => ([], [], remaining)
  | remaining, o :: rest =>
    if remaining ≤ 0 then ([], o :: rest, remaining)
    else
      let trade_amount := min remaining o.amount
      let t : Trade :=
        { id := 0
          symbol := sym
          buyer_id := if taker_buys then taker_id else o.participant_id
          seller_id := if taker_buys then o.participant_id else taker_id
          price := price
          volume := trade_amount
          timestamp := 0
          trade_type := TradeType.Market }
      let o' : Order := { o with amount := o.amount - trade_amount }
      let (ts, survivors, rem) := fill_level sym taker_buys taker_id price (remaining - trade_amount) rest
      if o'.amount ≤ 0 then (t :: ts, survivors, rem)
      else (t :: ts, o' :: survivors, rem)

/-- The outer loop of `process_market_order` over the price levels of the
opposite side, in iteration order (ascending for asks; the Sell side feeds the
reversed bid list).  Levels whose queue is emptied — or was already empty when
entered with a positive remainder — are removed (orderbook.rs lines 114-122,
169-177). -/
def walk_levels (sym : String) (taker_buys : Bool) (taker_id : String) :
    ℚ → List (ℚ × List Order) → List Trade × List (ℚ × List Order) × ℚ
  | remaining, [] => ([], [], remaining)
  | remaining, (p, orders) :: rest_levels =>
    if remaining ≤ 0 then ([], (p, orders) :: rest_levels, remaining)
    else
      let (ts, survivors, rem) := fill_level sym taker_buys taker_id p remaining orders
      let (ts2, levels2, rem2) := walk_levels sym taker_buys taker_id rem rest_levels
      if survivors.isEmpty then (ts ++ ts2, levels2, rem2)
      else (ts ++ ts2, (p, survivors) :: levels2, rem2)

/-- Sum of the volumes of a list of trades
(`trades.iter().map(|t| t.volume).sum()`). -/
def sum_volumes (ts : List Trade) : ℚ :=
  (ts.map Trade.volume).foldl (· + ·) 0

/-- `OrderBook::process_market_order` (orderbook.rs lines 64-186).  A Buy walks
the asks in ascending order, a Sell walks the bids in descending order (the
stored ascending list is reversed, walked, and reversed back).
`last_trade_price` is set per trade to the level price, so its final value is
the last trade's price; `total_volume` grows by each trade's volume.  Returns
`some trades` when at least one trade was emitted, `none` otherwise. -/
def process_market_order (book : OrderBook) (order : Order) : Option (List Trade) × OrderBook :=
  match order.side with
  | OrderSide.Buy =>
    let (ts, asks', _) := walk_levels book.symbol true order.participant_id order.amount book.asks
    let book' : OrderBook :=
      { book with
        asks := asks'
        last_trade_price := ((ts.getLast?).map Trade.price).getD book.last_trade_price
        total_volume := book.total_volume + sum_volumes ts }
    (if ts.isEmpty then none else some ts, book')
  | OrderSide.Sell =>
    let (ts, rev_bids', _) := walk_levels book.symbol false order.participant_id order.amount book.bids.reverse
    let book' : OrderBook :=
      { book with
        bids := rev_bids'.reverse
        last_trade_price := ((ts.getLast?).map Trade.price).getD book.last_trade_price
        total_volume := book.total_volume + sum_volumes ts }
    (if ts.isEmpty then none else some ts, book')

/-- `BTreeMap::entry(price).or_insert_with(Vec::new).push(order)`: append the
order at the tail of the FIFO queue of its price level, creating the level at
its sorted position if absent. -/
def entry_push : List (ℚ × List Order) → ℚ → Order → List (ℚ × List Order)
  | [], p, o => [(p, [o])]
  | (q, os) :: rest, p, o =>
    if p = q then (q, os ++ [o]) :: rest
    else if p < q then (p, [o]) :: (q, os) :: rest
    else (q, os) :: entry_push rest p o

/-- `OrderBook::process_limit_order` (orderbook.rs lines 188-257).  If the
order crosses the opposite best price it is converted — in its entirety — to a
market order and matched; the remaining amount (original amount minus the sum
of emitted trade volumes) rests at the order's limit price at the tail of that
level's queue when it is positive. -/
def process_limit_order (book : OrderBook) (order : Order) : Option (List Trade) × OrderBook :=
  match order.side with
  | OrderSide.Buy =>
    let step :=
      match get_best_ask book with
      | some best_ask =>
        if best_ask ≤ order.price then
          let market_order : Order := { order with order_type := OrderType.Market }
          let (mt, book1) := process_market_order book market_order
          (mt.getD [], book1)
        else ([], book)
      | none => ([], book)
    let ts := step.1
    let book1 := step.2
    let remaining_order : Order := { order with amount := order.amount - sum_volumes ts }
    let book2 :=
      if 0 < remaining_order.amount then
        { book1 with bids := entry_push book1.bids remaining_order.price remaining_order }
      else book1
    (if ts.isEmpty then none else some ts, book2)
  | OrderSide.Sell =>
    let step :=
      match get_best_bid book with
      | some best_bid =>
        if order.price ≤ best_bid then
          let market_order : Order := { order with order_type := OrderType.Market }
          let (mt, book1) := process_market_order book market_order
          (mt.getD [], book1)
        else ([], book)
      | none => ([], book)
    let ts := step.1
    let book1 := step.2
    let remaining_order : Order := { order with amount := order.amount - sum_volumes ts }
    let book2 :=
      if 0 < remaining_order.amount then
        { book1 with asks := entry_push book1.asks remaining_order.price remaining_order }
      else book1
    (if ts.isEmpty then none else some ts, book2)

/-- `OrderBook::process_stop_order` (orderbook.rs lines 259-276). -/
def process_stop_order (book : OrderBook) (order : Order) : Option (List Trade) × OrderBook :=
  let should_trigger : Bool :=
    match order.side with
    | OrderSide.Buy => order.price ≤ book.last_trade_price
    | OrderSide.Sell => book.last_trade_price ≤ order.price
  if should_trigger then
    process_market_order book { order with order_type := OrderType.Market }
  else (none, book)

/-- `OrderBook::process_stop_limit_order` (orderbook.rs lines 278-295). -/
def process_stop_limit_order (book : OrderBook) (order : Order) : Option (List Trade) × OrderBook :=
  let should_trigger : Bool :=
    match order.side with
    | OrderSide.Buy => order.price ≤ book.last_trade_price
    | OrderSide.Sell => book.last_trade_price ≤ order.price
  if should_trigger then
    process_limit_order book { order with order_type := OrderType.Limit }
  else (none, book)

/-- `OrderBook::add_order` (orderbook.rs lines 55-62). -/
def add_order (book : OrderBook) (order : Order) : Option (List Trade) × OrderBook :=
  match order.order_type with
  | OrderType.Market => process_market_order book order
  | OrderType.Limit => process_limit_order book order
  | OrderType.Stop => process_stop_order book order
  | OrderType.StopLimit => process_stop_limit_order book order

/-- All orders resting on a book (both sides, in level order). -/
def orders_of (book : OrderBook) : List Order :=
  (book.bids.map Prod.snd).flatten ++ (book.asks.map Prod.snd).flatten

/-- `BrokerType` from broker.rs. -/
inductive BrokerType where
  | DirectAccess
  | ECN
  | MarketMaker
  | STP
  | Hybrid
deriving DecidableEq, Repr

/-- `ExecutionModel` from broker.rs. -/
inductive ExecutionModel where
  | InstantExecution
  | MarketExecution
  | RequestExecution
  | ExchangeExecution
deriving DecidableEq, Repr

/-- `LiquidityProvider` from broker.rs. -/
structure LiquidityProvider where
  name : String
  tier : Nat
  weight : ℚ
  spread_markup : ℚ
deriving DecidableEq, Repr

/-- `Broker` from broker.rs. -/
structure Broker where
  id : String
  name : String
  broker_type : BrokerType
  spread : ℚ
  commission : ℚ
  execution_model : ExecutionModel
  liquidity_providers : List LiquidityProvider
  slippage_factor : ℚ
  requote_probability : ℚ
  max_leverage : ℚ
  min_trade_size : ℚ
  max_trade_size : ℚ
deriving DecidableEq, Repr

/-- `Broker::aggregate_liquidity_provider_prices` (broker.rs lines 208-227):
weight-normalized mean of `base_price ± markup` over the configured liquidity
providers (`+` on Buy, `-` on Sell); the base price when the total weight is
not positive. -/
def aggregate_liquidity_provider_prices (b : Broker) (base_price : ℚ) (side : OrderSide) : ℚ :=
  let weighted_price :=
    (b.liquidity_providers.map fun provider =>
      (match side with
       | OrderSide.Buy => base_price + provider.spread_markup
       | OrderSide.Sell => base_price - provider.spread_markup) * provider.weight).foldl (· + ·) 0
  let total_weight := (b.liquidity_providers.map LiquidityProvider.weight).foldl (· + ·) 0
  if 0 < total_weight then weighted_price / total_weight else base_price

/-- `Broker::adjust_price_for_execution` (broker.rs lines 187-206). -/
def adjust_price_for_execution (b : Broker) (price : ℚ) (side : OrderSide) : ℚ :=
  match b.broker_type with
  | BrokerType.DirectAccess => price
  | BrokerType.ECN => aggregate_liquidity_provider_prices b price side
  | BrokerType.MarketMaker =>
    match side with
    | OrderSide.Buy => price + b.spread / 2
    | OrderSide.Sell => price - b.spread / 2
  | BrokerType.STP => aggregate_liquidity_provider_prices b price side
  | BrokerType.Hybrid => aggregate_liquidity_provider_prices b price side

/-- Oracle for the random draws inside `Broker::process_order`:
`should_apply_slippage` / the slippage draw from `[0, slippage_factor)`, and
`should_requote` / the requote adjustment from `(-0.0005, 0.0005)`. -/
structure BrokerRng where
  apply_slippage : Bool
  slippage_draw : ℚ
  requote : Bool
  requote_adjustment : ℚ
deriving DecidableEq, Repr

/-- `Broker::apply_slippage` (broker.rs lines 234-242), with the uniform draw
as an explicit parameter. -/
def apply_slippage (price : ℚ) (side : OrderSide) (slippage : ℚ) : ℚ :=
  match side with
  | OrderSide.Buy => price + slippage
  | OrderSide.Sell => price - slippage

/-- `Broker::process_order` (broker.rs lines 167-185): execution-model price
adjustment, then (randomly) slippage, then (randomly) a requote multiplier.
Only the order's price is rewritten. -/
def process_order (b : Broker) (rng : BrokerRng) (order : Order) : Order :=
  let order1 : Order := { order with price := adjust_price_for_execution b order.price order.side }
  let order2 : Order :=
    if rng.apply_slippage then { order1 with price := apply_slippage order1.price order1.side rng.slippage_draw }
    else order1
  if rng.requote then { order2 with price := order2.price * (1 + rng.requote_adjustment) }
  else order2

/-- `Broker::calculate_notional_value` (broker.rs lines 326-332). -/
def calculate_notional_value (_b : Broker) (symbol : String) (volume : ℚ) : ℚ :=
  if symbol = "USDJPY" then volume * 100 else volume

/-- `Broker::get_margin_requirement` (broker.rs lines 320-324):
`notional / min(leverage, max_leverage)`. -/
def get_margin_requirement (b : Broker) (symbol : String) (volume : ℚ) (leverage : ℚ) : ℚ :=
  let effective_leverage := min leverage b.max_leverage
  let notional_value := calculate_notional_value b symbol volume
  notional_value / effective_leverage

/-- `Broker::can_execute_order` (broker.rs lines 294-309); the MarketMaker
stochastic rejection draw is an explicit parameter. -/
def can_execute_order (b : Broker) (order : Order) (mm_reject : Bool) : Bool :=
  if order.amount < b.min_trade_size ∨ b.max_trade_size < order.amount then false
  else
    match b.broker_type with
    | BrokerType.MarketMaker => !mm_reject
    | _ => true

/-- `ParticipantType` from participants.rs. -/
inductive ParticipantType where
  | Bank
  | Trader
  | HedgeFund
  | Corporation
  | Government
  | RetailTrader
deriving DecidableEq, Repr

/-- `Participant` from participants.rs, restricted to the fields the embedded
engine operations read or write (`execute_trade` touches only `balance`;
positions, strategy and the equity/margin fields are never consulted on the
embedded paths). -/
structure Participant where
  id : String
  name : String
  participant_type : ParticipantType
  balance : ℚ
deriving DecidableEq, Repr

/-- `MarketStats` from market.rs. -/
structure MarketStats where
  total_volume : ℚ
  total_trades : Nat
  active_participants : Nat
  liquidity_index : ℚ
  volatility : ℚ
deriving DecidableEq, Repr

/-- `MarketEngine` from market.rs (`HashMap`s as association lists, the
`Uuid` order keys as `Nat`). -/
structure MarketEngine where
  symbols : List (String × OrderBook)
  participants : List (String × Participant)
  active_orders : List (Nat × Order)
  trade_history : List Trade
  market_stats : MarketStats
deriving DecidableEq, Repr

/-- `MarketEngine::execute_trade` (market.rs lines 125-137). -/
def execute_trade (e : MarketEngine) (t : Trade) : MarketEngine :=
  let e1 : MarketEngine :=
    { e with
      trade_history := e.trade_history ++ [t]
      market_stats :=
        { e.market_stats with
          total_trades := e.market_stats.total_trades + 1
          total_volume := e.market_stats.total_volume + t.volume } }
  let e2 : MarketEngine :=
    match lookupA e1.participants t.buyer_id with
    | some buyer =>
      let buyer' : Participant := { buyer with balance := buyer.balance - t.price * t.volume }
      { e1 with participants := updateA e1.participants t.buyer_id buyer' }
    | none => e1
  match lookupA e2.participants t.seller_id with
  | some seller =>
    let seller' : Participant := { seller with balance := seller.balance + t.price * t.volume }
    { e2 with participants := updateA e2.participants t.seller_id seller' }
  | none => e2

/-- `MarketEngine::get_orderbook` (market.rs lines 75-77) panics when the
symbol is missing; `none` models that panic. -/
def get_orderbook (e : MarketEngine) (symbol : String) : Option OrderBook :=
  lookupA e.symbols symbol

/-- `MarketEngine::calculate_order_price` (market.rs lines 111-123):
best opposite price (default `1.0`) shifted by half the broker spread.
`none` propagates the `get_orderbook` panic on an unknown symbol. -/
def calculate_order_price (e : MarketEngine) (symbol : String) (side : OrderSide) (broker : Broker) :
    Option ℚ :=
  match get_orderbook e symbol with
  | none => none
  | some orderbook =>
    let base_price :=
      match side with
      | OrderSide.Buy => (get_best_ask orderbook).getD 1
      | OrderSide.Sell => (get_best_bid orderbook).getD 1
    some (match side with
          | OrderSide.Buy => base_price + broker.spread / 2
          | OrderSide.Sell => base_price - broker.spread / 2)

/-- Outcome of `MarketEngine::place_order`: `panicked` models a Rust panic
(process abort), `err` the `anyhow` error return. -/
inductive PlaceErr where
  | panicked (msg : String)
  | err (msg : String)
deriving DecidableEq, Repr

/-- `MarketEngine::place_order` (market.rs lines 79-109).  The fresh
`Uuid::new_v4()` order id is the `order_id` parameter and the broker's random
draws are the `rng` oracle.  The order is always constructed with
`order_type = Market` and `participant_id = "user"`; after matching it is
unconditionally inserted into `active_orders`. -/
def place_order (e : MarketEngine) (symbol : String) (side : OrderSide) (amount : ℚ)
    (broker : Broker) (order_id : Nat) (rng : BrokerRng) :
    Except PlaceErr (Nat × MarketEngine) :=
  match calculate_order_price e symbol side broker with
  | none => Except.error (PlaceErr.panicked ("Symbol " ++ symbol ++ " not found"))
  | some price =>
    let order : Order :=
      { id := order_id
        symbol := symbol
        side := side
        amount := amount
        price := price
        timestamp := 0
        participant_id := "user"
        order_type := OrderType.Market }
    let adjusted_order := process_order broker rng order
    match lookupA e.symbols symbol with
    | none => Except.error (PlaceErr.err "Symbol not found")
    | some orderbook =>
      let (trades_opt, orderbook') := add_order orderbook adjusted_order
      let e1 : MarketEngine := { e with symbols := updateA e.symbols symbol orderbook' }
      let e2 :=
        match trades_opt with
        | some trades => trades.foldl execute_trade e1
        | none => e1
      Except.ok (order_id, { e2 with active_orders := insertA e2.active_orders order_id adjusted_order })

/-- `Candle` from price_feed.rs (`open` is a Lean keyword, hence `open_`;
timestamps are i64 seconds). -/
structure Candle where
  timestamp : Int
  open_ : ℚ
  high : ℚ
  low : ℚ
  close : ℚ
  volume : ℚ
deriving DecidableEq, Repr

/-- `PriceData` from price_feed.rs. -/
structure PriceData where
  symbol : String
  bid : ℚ
  ask : ℚ
  last : ℚ
  high_24h : ℚ
  low_24h : ℚ
  volume_24h : ℚ
  timestamp : Int
  change_24h : ℚ
  change_percent_24h : ℚ
deriving DecidableEq, Repr

/-- `PriceFeed` from price_feed.rs. -/
structure PriceFeed where
  prices : List (String × PriceData)
  historical_data : List (String × List Candle)
  last_update : Int
deriving DecidableEq, Repr

/-- `PriceFeed::calculate_spread` (price_feed.rs lines 70-80). -/
def calculate_spread (symbol : String) : ℚ :=
  if symbol = "EURUSD" then 15/100000
  else if symbol = "GBPUSD" then 20/100000
  else if symbol = "USDJPY" then 15/1000
  else if symbol = "USDCHF" then 18/100000
  else if symbol = "AUDUSD" then 25/100000
  else if symbol = "USDCAD" then 22/100000
  else 20/100000

/-- `PriceFeed::get_symbol_volatility` (price_feed.rs lines 116-126). -/
def get_symbol_volatility (symbol : String) : ℚ :=
  if symbol = "EURUSD" then 8/10000
  else if symbol = "GBPUSD" then 12/10000
  else if symbol = "USDJPY" then 10/10000
  else if symbol = "USDCHF" then 9/10000
  else if symbol = "AUDUSD" then 15/10000
  else if symbol = "USDCAD" then 11/10000
  else 10/10000

/-- `PriceFeed::get_current_price` (price_feed.rs lines 231-246): the stored
`PriceData` for a known symbol, otherwise a default record (the wall-clock
timestamp of the default branch is the `now` parameter). -/
def get_current_price (feed : PriceFeed) (symbol : String) (now : Int) : PriceData :=
  match lookupA feed.prices symbol with
  | some pd => pd
  | none =>
    { symbol := symbol
      bid := 1
      ask := 10001/10000
      last := 1
      high_24h := 1
      low_24h := 1
      volume_24h := 0
      timestamp := now
      change_24h := 0
      change_percent_24h := 0 }

/-- Oracle for the nondeterministic inputs of one `add_market_noise` call:
the noise draw from `(-vol/10, vol/10)`, the wall clock, and the two random
candle-volume draws of `update_candle_data`. -/
structure NoiseRng where
  noise : ℚ
  now : Int
  vol_add : ℚ
  vol_new : ℚ
deriving DecidableEq, Repr

/-- `PriceFeed::update_candle_data` (price_feed.rs lines 193-229): update the
current minute's candle in place, or append a fresh candle and cap the history
at 10000 entries.  When the symbol has no history entry, or the history is
empty (`last_mut()` is `None`), nothing happens. -/
def update_candle_data (feed : PriceFeed) (symbol : String) (old_price new_price : ℚ)
    (now : Int) (vol_add vol_new : ℚ) : PriceFeed :=
  match lookupA feed.historical_data symbol with
  | none => feed
  | some history =>
    let current_minute := now / 60
    match history.getLast? with
    | none => feed
    | some last_candle =>
      let last_minute := last_candle.timestamp / 60
      if current_minute = last_minute then
        let updated : Candle :=
          { last_candle with
            close := new_price
            high := max last_candle.high new_price
            low := min last_candle.low new_price
            volume := last_candle.volume + vol_add }
        { feed with historical_data := updateA feed.historical_data symbol (history.dropLast ++ [updated]) }
      else
        let new_candle : Candle :=
          { timestamp := now
            open_ := old_price
            high := max new_price old_price
            low := min new_price old_price
            close := new_price
            volume := vol_new }
        let history1 := history ++ [new_candle]
        let history2 := if 10000 < history1.length then history1.drop 1 else history1
        { feed with historical_data := updateA feed.historical_data symbol history2 }

/-- `PriceFeed::add_market_noise` (price_feed.rs lines 163-191): rescale `last`
by `1 + noise`, rederive bid/ask symmetrically from the spread table, recompute
the 24h change against the candle 1440 entries from the end, then update the
candle buffer.  `high_24h` / `low_24h` are not touched here. -/
def add_market_noise (feed : PriceFeed) (symbol : String) (rng : NoiseRng) : PriceFeed :=
  let spread := calculate_spread symbol
  match lookupA feed.prices symbol with
  | none => feed
  | some pd =>
    let old_price := pd.last
    let last' := pd.last * (1 + rng.noise)
    let pd1 : PriceData := { pd with last := last', bid := last' - spread / 2, ask := last' + spread / 2 }
    let pd2 : PriceData :=
      match lookupA feed.historical_data symbol with
      | some history =>
        match history[history.length - 1440]? with
        | some candle_24h_ago =>
          { pd1 with
            change_24h := pd1.last - candle_24h_ago.close
            change_percent_24h := (pd1.last - candle_24h_ago.close) / candle_24h_ago.close * 100 }
        | none => pd1
      | none => pd1
    let feed1 : PriceFeed := { feed with prices := updateA feed.prices symbol pd2 }
    update_candle_data feed1 symbol old_price pd2.last rng.now rng.vol_add rng.vol_new

/-- The per-symbol body of `update_from_market` (price_feed.rs lines 129-157):
sync bid/ask/last/volume from the book, extend the 24h high/low envelope with
the new `last`, stamp the time, then apply the market noise step. -/
def update_symbol_from_book (pd : PriceData) (book : OrderBook) (now : Int) : PriceData :=
  let pd1 := match get_best_bid book with
             | some best_bid => { pd with bid := best_bid }
             | none => pd
  let pd2 := match get_best_ask book with
             | some best_ask => { pd1 with ask := best_ask }
             | none => pd1
  let pd3 : PriceData := { pd2 with last := book.last_trade_price, volume_24h := book.total_volume }
  let pd4 := if pd3.high_24h < pd3.last then { pd3 with high_24h := pd3.last } else pd3
  let pd5 := if pd4.last < pd4.low_24h then { pd4 with low_24h := pd4.last } else pd4
  { pd5 with timestamp := now }

/-- `PriceFeed::update_from_market` (price_feed.rs lines 128-161): for every
symbol of the engine that the feed tracks, sync the `PriceData` from the order
book and apply `add_market_noise`; finally stamp `last_update`.  The oracle
`rng_for` supplies each symbol's fresh random draws. -/
def update_from_market (feed : PriceFeed) (market : MarketEngine)
    (rng_for : String → NoiseRng) (now : Int) : PriceFeed :=
  let feed1 := market.symbols.foldl
    (fun acc sb =>
      match lookupA acc.prices sb.1 with
      | none => acc
      | some pd =>
        let pd' := update_symbol_from_book pd sb.2 now
        let acc1 : PriceFeed := { acc with prices := updateA acc.prices sb.1 pd' }
        add_market_noise acc1 sb.1 (rng_for sb.1))
    feed
  { feed1 with last_update := now }

/-- `PriceFeed::create_aggregated_candle` (price_feed.rs lines 298-325).
The `fold(f64::INFINITY, f64::min)` seed for `low` is modelled by starting the
fold at the first element (every rational is below `+∞`); the `high` fold keeps
the source's `0.0` seed.  In the (unreachable) empty branch the wall-clock
timestamp is fixed to `0`. -/
def create_aggregated_candle (candles : List Candle) (_minutes : Nat) : Candle :=
  match candles with
  | [] => { timestamp := 0, open_ := 1, high := 1, low := 1, close := 1, volume := 0 }
  | c :: cs =>
    { timestamp := c.timestamp
      open_ := c.open_
      high := ((c :: cs).map Candle.high).foldl max 0
      low := (cs.map Candle.low).foldl min c.low
      close := ((c :: cs).getLast (by simp)).close
      volume := ((c :: cs).map Candle.volume).foldl (· + ·) 0 }

/-- The loop of `aggregate_candles` (price_feed.rs lines 269-289), walking the
1-minute candles newest-first (`candles.iter().rev()`), grouping by
`(ts / 60 / minutes) * minutes` and flushing each finished group.  The `break`
when `limit` is reached returns immediately: the final flush (lines 291-293)
is skipped exactly when `aggregated.len() ≥ limit`. -/
def aggregate_loop (minutes : Nat) (limit : Nat) :
    List Candle → List Candle → Option Int → List Candle → List Candle
  | aggregated, current_group, _, [] =>
    if ¬ current_group.isEmpty ∧ aggregated.length < limit then
      aggregated ++ [create_aggregated_candle current_group minutes]
    else aggregated
  | aggregated, current_group, current_period_start, c :: rest =>
    let period_start := c.timestamp / 60 / (minutes : Int) * (minutes : Int)
    let cps := if current_period_start.isNone then some period_start else current_period_start
    if some period_start = cps then
      aggregate_loop minutes limit aggregated (current_group ++ [c]) cps rest
    else
      let aggregated' :=
        if ¬ current_group.isEmpty then aggregated ++ [create_aggregated_candle current_group minutes]
        else aggregated
      if limit ≤ aggregated'.length then aggregated'
      else aggregate_loop minutes limit aggregated' [c] (some period_start) rest

/-- `PriceFeed::aggregate_candles` (price_feed.rs lines 264-296). -/
def aggregate_candles (candles : List Candle) (minutes : Nat) (limit : Nat) : List Candle :=
  aggregate_loop minutes limit [] [] none candles.reverse

/-- `PriceFeed::get_historical_data` (price_feed.rs lines 248-262). -/
def get_historical_data (feed : PriceFeed) (symbol : String) (timeframe : String)
    (limit : Nat) : List Candle :=
  match lookupA feed.historical_data symbol with
  | none => []
  | some history =>
    if timeframe = "1m" then (history.reverse.take limit)
    else if timeframe = "5m" then aggregate_candles history 5 limit
    else if timeframe = "15m" then aggregate_candles history 15 limit
    else if timeframe = "1h" then aggregate_candles history 60 limit
    else if timeframe = "4h" then aggregate_candles history 240 limit
    else if timeframe = "1d" then aggregate_candles history 1440 limit
    else (history.reverse.take limit)

/-! Concrete instances used by the counterexamples and witnesses below. -/

/-- A resting sell order of amount 1 at price 1. -/
def exAskA : Order :=
  { id := 1, symbol := "EURUSD", side := OrderSide.Sell, amount := 1, price := 1,
    timestamp := 0, participant_id := "A", order_type := OrderType.Limit }

/-- A resting sell order of amount 1 at price 2. -/
def exAskB : Order :=
  { id := 2, symbol := "EURUSD", side := OrderSide.Sell, amount := 1, price := 2,
    timestamp := 0, participant_id := "B", order_type := OrderType.Limit }

/-- A book with one-lot asks at prices 1 and 2. -/
def exBook1 : OrderBook :=
  { symbol := "EURUSD", bids := [], asks := [(1, [exAskA]), (2, [exAskB])],
    last_trade_price := 1, total_volume := 0 }

/-- An incoming buy limit order at price 3/2 for amount 2: marketable against
`exBook1` (best ask 1), but its limit sits strictly below the second ask
level 2. -/
def exLimitBuy1 : Order :=
  { id := 9, symbol := "EURUSD", side := OrderSide.Buy, amount := 2, price := 3/2,
    timestamp := 0, participant_id := "C", order_type := OrderType.Limit }

/-- A book with a single one-lot ask at price 1. -/
def exBook2 : OrderBook :=
  { symbol := "EURUSD", bids := [], asks := [(1, [exAskA])],
    last_trade_price := 1, total_volume := 0 }

/-- An incoming buy limit order at price 2 for amount 3: marketable, and
leaving a residual of 2 after the single ask lot is consumed. -/
def exLimitBuy2 : Order :=
  { id := 9, symbol := "EURUSD", side := OrderSide.Buy, amount := 3, price := 2,
    timestamp := 0, participant_id := "C", order_type := OrderType.Limit }

/-- A direct-access broker configuration with zero spread (no price rewriting,
`adjust_price_for_execution` is the identity for `DirectAccess`). -/
def exBroker : Broker :=
  { id := "b", name := "b", broker_type := BrokerType.DirectAccess, spread := 0,
    commission := 0, execution_model := ExecutionModel.ExchangeExecution,
    liquidity_providers := [], slippage_factor := 1/10000,
    requote_probability := 1/50, max_leverage := 500,
    min_trade_size := 1000, max_trade_size := 100000000 }

/-- A broker-randomness oracle in which neither slippage nor requote fires. -/
def exRng : BrokerRng :=
  { apply_slippage := false, slippage_draw := 0, requote := false, requote_adjustment := 0 }

/-- Zeroed market statistics. -/
def exStats : MarketStats :=
  { total_volume := 0, total_trades := 0, active_participants := 0,
    liquidity_index := 0, volatility := 0 }

/-- An empty EURUSD book. -/
def exEmptyBook : OrderBook :=
  { symbol := "EURUSD", bids := [], asks := [], last_trade_price := 1, total_volume := 0 }

/-- An engine with a single empty EURUSD book. -/
def exEngine1 : MarketEngine :=
  { symbols := [("EURUSD", exEmptyBook)], participants := [], active_orders := [],
    trade_history := [], market_stats := exStats }

/-- A resting sell order of amount 5 at price 1. -/
def exAskA5 : Order := { exAskA with amount := 5 }

/-- A book with a single resting ask of amount 5 at price 1. -/
def exBook3 : OrderBook :=
  { symbol := "EURUSD", bids := [], asks := [(1, [exAskA5])],
    last_trade_price := 1, total_volume := 0 }

/-- An engine whose EURUSD book is `exBook3`. -/
def exEngine2 : MarketEngine :=
  { symbols := [("EURUSD", exBook3)], participants := [], active_orders := [],
    trade_history := [], market_stats := exStats }

/-- A 1-minute candle at timestamp 0 s: open 10, close 11. -/
def exCandle1 : Candle :=
  { timestamp := 0, open_ := 10, high := 12, low := 9, close := 11, volume := 100 }

/-- A 1-minute candle at timestamp 60 s (same 5-minute period as `exCandle1`):
open 11, close 12. -/
def exCandle2 : Candle :=
  { timestamp := 60, open_ := 11, high := 13, low := 10, close := 12, volume := 200 }

/-- A feed whose EURUSD history is the chronological pair
`[exCandle1, exCandle2]`. -/
def exFeed5 : PriceFeed :=
  { prices := [], historical_data := [("EURUSD", [exCandle1, exCandle2])], last_update := 0 }

/-- EURUSD price data sitting exactly at the top of its 24h band:
`last = high_24h = low_24h = 1`. -/
def exPd6 : PriceData :=
  { symbol := "EURUSD", bid := 1, ask := 10001/10000, last := 1, high_24h := 1,
    low_24h := 1, volume_24h := 0, timestamp := 0, change_24h := 0,
    change_percent_24h := 0 }

/-- A feed tracking EURUSD at `exPd6` with an empty candle history. -/
def exFeed6 : PriceFeed :=
  { prices := [("EURUSD", exPd6)], historical_data := [("EURUSD", [])], last_update := 0 }

/-- A positive noise draw of 1/25000 = 0.00004, inside the EURUSD noise range
`(-vol/10, vol/10) = (-0.00008, 0.00008)`. -/
def exNoise : NoiseRng := { noise := 1/25000, now := 0, vol_add := 10, vol_new := 100 }

/-- The EURUSD price data after updating `exFeed6` from `exEngine1` with the
`exNoise` draw. -/
def exUpdatedPd : Option PriceData :=
  lookupA (update_from_market exFeed6 exEngine1 (fun _ => exNoise) 0).prices "EURUSD"

/-- GBPUSD price data, used by the C10 witness. -/
def exPd10 : PriceData := { exPd6 with symbol := "GBPUSD" }

/-- A feed with a stored GBPUSD entry, used by the C10 witness. -/
def exFeed10 : PriceFeed :=
  { prices := [("GBPUSD", exPd10)], historical_data := [], last_update := 0 }

/-- The order that `place_order exEngine1 "EURUSD" Buy 1000 exBroker 11 exRng`
submits to the book: market order, participant "user", price 1 (empty book
default best ask 1, zero broker spread, no slippage or requote). -/
def exOrder9 : Order :=
  { id := 11, symbol := "EURUSD", side := OrderSide.Buy, amount := 1000, price := 1,
    timestamp := 0, participant_id := "user", order_type := OrderType.Market }

/-- The engine produced by that `place_order` call: the book is unchanged and
the order sits in the active-order index. -/
def exEngine9 : MarketEngine :=
  { symbols := [("EURUSD", exEmptyBook)], participants := [],
    active_orders := [(11, exOrder9)], trade_history := [], market_stats := exStats }

/-- The EURUSD price data after `add_market_noise exFeed6 "EURUSD" exNoise`:
`last` rescaled by `1 + 1/25000`, bid/ask rederived from the spread,
`high_24h` / `low_24h` untouched. -/
def exPdf : PriceData :=
  { symbol := "EURUSD", bid := 199993/200000, ask := 200023/200000, last := 25001/25000,
    high_24h := 1, low_24h := 1, volume_24h := 0, timestamp := 0, change_24h := 0,
    change_percent_24h := 0 }

/-- The order that `place_order exEngine2 "EURUSD" Buy 5 exBroker 42 exRng`
submits to the book. -/
def exOrder7 : Order :=
  { id := 42, symbol := "EURUSD", side := OrderSide.Buy, amount := 5, price := 1,
    timestamp := 0, participant_id := "user", order_type := OrderType.Market }

/-- The trade that call executes: the 5-lot ask of "A" is fully consumed. -/
def exTrade7 : Trade :=
  { id := 0, symbol := "EURUSD", buyer_id := "user", seller_id := "A", price := 1,
    volume := 5, timestamp := 0, trade_type := TradeType.Market }

/-- The EURUSD book after that call: swept empty, volume 5. -/
def exBook7 : OrderBook :=
  { symbol := "EURUSD", bids := [], asks := [], last_trade_price := 1, total_volume := 5 }

/-- The engine after that call: the fully filled order still sits in the
active-order index. -/
def exEngine7 : MarketEngine :=
  { symbols := [("EURUSD", exBook7)], participants := [],
    active_orders := [(42, exOrder7)], trade_history := [exTrade7],
    market_stats := { total_volume := 5, total_trades := 1, active_participants := 0,
                      liquidity_index := 0, volatility := 0 } }

/-! Theorems.  Each claim of the specification is settled below. -/

/-- C1 counterexample: submitting the marketable buy limit order `exLimitBuy1`
(limit price 3/2) to `exBook1` emits trades at prices 1 and 2 — the second
trade executes at price 2, strictly above the order's limit price, refuting
"every trade it emits has price ≤ the order's limit price". -/
theorem C1_counterexample :
    ((add_order exBook1 exLimitBuy1).1.getD []).map Trade.price = [1, 2] ∧
    exLimitBuy1.price < 2 := by
  refine ⟨by with_unfolding_all rfl, ?_⟩
  show (3/2 : ℚ) < 2
  norm_num

/-- C2: on an engine that has no book for the requested symbol, `place_order`
does not reach its `Err("Symbol not found")` return: it panics first, inside
`get_orderbook` called from `calculate_order_price` (market.rs line 81 →
line 76), as witnessed by the evaluation at the concrete unknown symbol
"XAUUSD". -/
theorem C2_panics :
    place_order exEngine1 "XAUUSD" OrderSide.Buy 1000 exBroker 7 exRng =
      Except.error (PlaceErr.panicked "Symbol XAUUSD not found") := by
  with_unfolding_all rfl

/-- C3 counterexample: an order with amount 0 on a known symbol is not
rejected — `place_order` returns `Ok` with the fresh order id, emits no
trades, and mutates the engine by recording the order in the active-order
index (length grows from 0 to 1). -/
theorem C3_counterexample :
    (place_order exEngine1 "EURUSD" OrderSide.Buy 0 exBroker 7 exRng).toOption.map
      (fun x => (x.1, x.2.active_orders.length, x.2.trade_history.length)) =
      some (7, 1, 0) ∧
    exEngine1.active_orders.length = 0 := by
  exact ⟨by with_unfolding_all rfl, by with_unfolding_all rfl⟩

/-- C5: aggregating the two-candle EURUSD history of `exFeed5` (chronological:
`exCandle1` at 0 s with open 10 / close 11, then `exCandle2` at 60 s with
open 11 / close 12, both in the same 5-minute period) produces a candle with
`open = 11` (the open of the chronologically *last* candle), `close = 11` (the
close of the chronologically *first*), and `timestamp = 60` — because
`aggregate_candles` builds each group newest-first before
`create_aggregated_candle` takes `first.open` / `last.close`.  The claim (and
spec §4.4 / §8) demand open 10, close 12, timestamp 0; high/low/volume are as
claimed. -/
theorem C5_open_close_swapped :
    get_historical_data exFeed5 "EURUSD" "5m" 10 =
      [{ timestamp := 60, open_ := 11, high := 13, low := 9, close := 11, volume := 300 }] ∧
    exCandle1.open_ = 10 ∧ exCandle1.close = 11 ∧ exCandle1.timestamp = 0 ∧
    exCandle2.open_ = 11 ∧ exCandle2.close = 12 ∧ exCandle2.timestamp = 60 ∧
    (11 : ℚ) ≠ 10 ∧ (11 : ℚ) ≠ 12 := by
  refine ⟨by with_unfolding_all rfl, by with_unfolding_all rfl, by with_unfolding_all rfl,
    rfl, by with_unfolding_all rfl, by with_unfolding_all rfl, rfl, by norm_num, by norm_num⟩

/-- C6 counterexample: updating `exFeed6` (EURUSD sitting at
`last = high_24h = low_24h = 1`) from `exEngine1` with the legal noise draw
`1/25000` (inside `(-vol/10, vol/10) = (-1/12500, 1/12500)`) leaves
`high_24h = 1` but moves `last` to `25001/25000 > 1`: the invariant
`high_24h ≥ last` fails after `update_from_market`'s noise step. -/
theorem C6_counterexample :
    exUpdatedPd.map PriceData.last = some (25001/25000) ∧
    exUpdatedPd.map PriceData.high_24h = some 1 ∧
    ¬ ((25001 : ℚ)/25000 ≤ 1) ∧
    exNoise.noise < get_symbol_volatility "EURUSD" * (1/10) ∧
    -(get_symbol_volatility "EURUSD" * (1/10)) < exNoise.noise := by
  refine ⟨by with_unfolding_all rfl, by with_unfolding_all rfl, by norm_num, ?_, ?_⟩
  · show (1/25000 : ℚ) < (8/10000 : ℚ) * (1/10)
    norm_num
  · show -((8/10000 : ℚ) * (1/10)) < (1/25000 : ℚ)
    norm_num

/-- C7 counterexample: a market buy of amount 5 against `exEngine2` (one
resting 5-lot ask) is fully filled at arrival (total executed volume 5), yet
after `place_order` returns, the order is still present in the active-order
index. -/
theorem C7_counterexample :
    (place_order exEngine2 "EURUSD" OrderSide.Buy 5 exBroker 42 exRng).toOption.map
      (fun x => ((lookupA x.2.active_orders 42).isSome, sum_volumes x.2.trade_history)) =
      some (true, 5) := by
  with_unfolding_all rfl

/-- C8: for positive volume, the margin requirement
`notional / min(leverage, max_leverage)` is strictly decreasing in leverage on
`(0, max_leverage]` and constant (equal to its value at `max_leverage`) for
every leverage ≥ `max_leverage`. -/
theorem C8_margin_monotone (b : Broker) (symbol : String) (volume : ℚ)
    (hv : 0 < volume) (l1 l2 : ℚ) :
    (0 < l1 → l1 < l2 → l2 ≤ b.max_leverage →
      get_margin_requirement b symbol volume l2 < get_margin_requirement b symbol volume l1) ∧
    (b.max_leverage ≤ l1 →
      get_margin_requirement b symbol volume l1 =
        get_margin_requirement b symbol volume b.max_leverage) := by
  have hN : 0 < calculate_notional_value b symbol volume := by
    unfold calculate_notional_value
    split
    · positivity
    · exact hv
  constructor
  · intro h1 h12 h2max
    unfold get_margin_requirement
    rw [min_eq_left (le_of_lt (lt_of_lt_of_le h12 h2max)), min_eq_left h2max]
    exact div_lt_div_of_pos_left hN h1 h12
  · intro hmax
    unfold get_margin_requirement
    rw [min_eq_right hmax, min_self]

/-- C8 witness: the margin monotonicity statement instantiated at the concrete
broker `exBroker` (max leverage 500), symbol EURUSD, volume 1, leverages 1
and 2. -/
theorem C8_margin_monotone_witness :
    0 < (1 : ℚ) ∧
    ((0 < (1 : ℚ) → (1 : ℚ) < 2 → (2 : ℚ) ≤ exBroker.max_leverage →
      get_margin_requirement exBroker "EURUSD" 1 2 < get_margin_requirement exBroker "EURUSD" 1 1) ∧
    (exBroker.max_leverage ≤ (1 : ℚ) →
      get_margin_requirement exBroker "EURUSD" 1 1 =
        get_margin_requirement exBroker "EURUSD" 1 exBroker.max_leverage)) :=
  ⟨by norm_num, C8_margin_monotone exBroker "EURUSD" 1 (by norm_num) 1 2⟩

/-- C10: `get_current_price` is total — for a symbol absent from the feed it
returns the default `PriceData` (bid 1, ask 1.0001, last/high/low 1, zero
volume and change fields), and for a present symbol the stored record
unchanged. -/
theorem C10_get_current_price_total (feed : PriceFeed) (symbol : String) (now : Int) :
    (lookupA feed.prices symbol = none →
      get_current_price feed symbol now =
        { symbol := symbol, bid := 1, ask := 10001/10000, last := 1, high_24h := 1,
          low_24h := 1, volume_24h := 0, timestamp := now, change_24h := 0,
          change_percent_24h := 0 }) ∧
    (∀ pd, lookupA feed.prices symbol = some pd →
      get_current_price feed symbol now = pd) := by
  constructor
  · intro h
    unfold get_current_price
    rw [h]
  · intro pd h
    unfold get_current_price
    rw [h]

/-- C10 witness: on `exFeed10`, the unknown symbol "ZZZ" yields the default
record and the stored symbol "GBPUSD" yields its stored record. -/
theorem C10_get_current_price_total_witness :
    lookupA exFeed10.prices "ZZZ" = none ∧
    get_current_price exFeed10 "ZZZ" 5 =
      { symbol := "ZZZ", bid := 1, ask := 10001/10000, last := 1, high_24h := 1,
        low_24h := 1, volume_24h := 0, timestamp := 5, change_24h := 0,
        change_percent_24h := 0 } ∧
    lookupA exFeed10.prices "GBPUSD" = some exPd10 ∧
    get_current_price exFeed10 "GBPUSD" 5 = exPd10 := by
  have h1 : lookupA exFeed10.prices "ZZZ" = none := by with_unfolding_all rfl
  have h2 : lookupA exFeed10.prices "GBPUSD" = some exPd10 := by with_unfolding_all rfl
  exact ⟨h1, (C10_get_current_price_total exFeed10 "ZZZ" 5).1 h1, h2,
    (C10_get_current_price_total exFeed10 "GBPUSD" 5).2 exPd10 h2⟩

/-- Unfolding lemma: `fill_level` on a non-positive remainder leaves the queue
untouched and emits nothing. -/
theorem fill_level_eq_of_nonpos (sym : String) (tb : Bool) (tid : String) (p r : ℚ)
    (o : Order) (rest : List Order) (h : r ≤ 0) :
    fill_level sym tb tid p r (o :: rest) = ([], o :: rest, r) := by
  unfold fill_level
  rw [if_pos h]

/-- Unfolding lemma: with a positive remainder, the trades of `fill_level` on
`o :: rest` are the trade against `o` (volume `min r o.amount`) followed by the
trades of the recursive call on `rest` with remainder `r - min r o.amount`. -/
theorem fill_level_trades_cons (sym : String) (tb : Bool) (tid : String) (p r : ℚ)
    (o : Order) (rest : List Order) (h : ¬ r ≤ 0) :
    (fill_level sym tb tid p r (o :: rest)).1 =
      ({ id := 0, symbol := sym,
         buyer_id := if tb then tid else o.participant_id,
         seller_id := if tb then o.participant_id else tid,
         price := p, volume := min r o.amount, timestamp := 0,
         trade_type := TradeType.Market } : Trade) ::
      (fill_level sym tb tid p (r - min r o.amount) rest).1 := by
  rcases hrec : fill_level sym tb tid p (r - min r o.amount) rest with ⟨ts, svr, rem⟩
  simp only [fill_level, if_neg h]
  rw [hrec]
  split_ifs <;> rfl

/-- When `fill_level` emitted at least one trade, the remainder it was given
was positive. -/
theorem pos_of_fill_level_trades_ne_nil (sym : String) (tb : Bool) (tid : String)
    (p r : ℚ) (qs : List Order) (h : (fill_level sym tb tid p r qs).1 ≠ []) :
    0 < r := by
  cases qs with
  | nil => exact absurd rfl h
  | cons o rest =>
    by_cases hr : r ≤ 0
    · rw [fill_level_eq_of_nonpos sym tb tid p r o rest hr] at h
      exact absurd rfl h
    · linarith [not_le.mp hr]

/-- Keys strictly above the searched key are never hit by `lookupA`. -/
theorem lookupA_eq_none_of_lt (levels : List (ℚ × List Order)) (q : ℚ)
    (h : ∀ k ∈ levels.map Prod.fst, q < k) :
    lookupA levels q = none := by
  induction levels with
  | nil => rfl
  | cons hd tl ih =>
    unfold lookupA
    rw [if_neg, ih]
    · intro k hk
      exact h k (by simp [hk])
    · exact ne_of_lt (h hd.1 (by simp))

/-- On a level list with strictly ascending keys (the BTreeMap invariant),
`entry_push` appends the order at the tail of its price level's queue. -/
theorem entry_push_lookupA (levels : List (ℚ × List Order)) (q : ℚ) (o : Order)
    (hsorted : List.Pairwise (· < ·) (levels.map Prod.fst)) :
    lookupA (entry_push levels q o) q = some ((lookupA levels q).getD [] ++ [o]) := by
  induction levels with
  | nil => simp [entry_push, lookupA]
  | cons hd tl ih =>
    obtain ⟨q', os⟩ := hd
    rw [List.map_cons, List.pairwise_cons] at hsorted
    by_cases h1 : q = q'
    · subst h1
      simp [entry_push, lookupA]
    · by_cases h2 : q < q'
      · have htl : lookupA tl q = none := by
          apply lookupA_eq_none_of_lt
          intro k hk
          exact lt_trans h2 (hsorted.1 k hk)
        simp [entry_push, if_neg h1, if_pos h2, lookupA, h1, htl]
      · simp only [entry_push, if_neg h1, if_neg h2]
        unfold lookupA
        rw [if_neg h1, if_neg h1]
        exact ih hsorted.2

/-- `fill_level` emits at most one trade per resting order of the queue. -/
theorem fill_level_length_le (sym : String) (tb : Bool) (tid : String) (p : ℚ)
    (qs : List Order) : ∀ r : ℚ, (fill_level sym tb tid p r qs).1.length ≤ qs.length := by
  induction qs with
  | nil => intro r; simp [fill_level]
  | cons o rest ih =>
    intro r
    by_cases hr : r ≤ 0
    · rw [fill_level_eq_of_nonpos sym tb tid p r o rest hr]
      simp
    · rw [fill_level_trades_cons sym tb tid p r o rest hr]
      simpa using ih (r - min r o.amount)

/-- The k-th trade emitted by `fill_level` is matched against the k-th resting
order of the queue: trades are emitted in FIFO queue order. -/
theorem fill_level_counterparty (sym : String) (tb : Bool) (tid : String) (p : ℚ)
    (qs : List Order) :
    ∀ (r : ℚ) (k : Nat) (t : Trade) (oa : Order),
      ((fill_level sym tb tid p r qs).1)[k]? = some t → qs[k]? = some oa →
      (if tb then t.seller_id else t.buyer_id) = oa.participant_id := by
  induction qs with
  | nil =>
    intro r k t oa ht _
    rw [show (fill_level sym tb tid p r []).1 = [] from rfl] at ht
    simp at ht
  | cons o rest ih =>
    intro r k t oa ht hq
    by_cases hr : r ≤ 0
    · rw [fill_level_eq_of_nonpos sym tb tid p r o rest hr] at ht
      simp at ht
    · rw [fill_level_trades_cons sym tb tid p r o rest hr] at ht
      cases k with
      | zero =>
        rw [List.getElem?_cons_zero] at ht hq
        obtain rfl : _ = t := Option.some_injective _ ht
        obtain rfl : o = oa := Option.some_injective _ hq
        cases tb <;> simp
      | succ k' =>
        rw [List.getElem?_cons_succ] at ht hq
        exact ih (r - min r o.amount) k' t oa ht hq

/-- Strict FIFO consumption: if `fill_level` emitted a j-th trade, then every
resting order before position j had its full amount consumed by its own trade
(earlier orders are exhausted before any later order is touched). -/
theorem fill_level_full_before (sym : String) (tb : Bool) (tid : String) (p : ℚ)
    (qs : List Order) :
    ∀ (r : ℚ) (i j : Nat) (tj ti : Trade) (oi : Order), i < j →
      ((fill_level sym tb tid p r qs).1)[j]? = some tj →
      ((fill_level sym tb tid p r qs).1)[i]? = some ti → qs[i]? = some oi →
      ti.volume = oi.amount := by
  induction qs with
  | nil =>
    intro r i j tj ti oi _ _ hti _
    rw [show (fill_level sym tb tid p r []).1 = [] from rfl] at hti
    simp at hti
  | cons o rest ih =>
    intro r i j tj ti oi hij htj hti hq
    by_cases hr : r ≤ 0
    · rw [fill_level_eq_of_nonpos sym tb tid p r o rest hr] at hti
      simp at hti
    · rw [fill_level_trades_cons sym tb tid p r o rest hr] at htj hti
      cases i with
      | zero =>
        obtain ⟨j', rfl⟩ : ∃ j', j = j' + 1 := ⟨j - 1, by omega⟩
        rw [List.getElem?_cons_succ] at htj
        rw [List.getElem?_cons_zero] at hti
        rw [List.getElem?_cons_zero] at hq
        obtain rfl : _ = ti := Option.some_injective _ hti
        obtain rfl : o = oi := Option.some_injective _ hq
        have hne : (fill_level sym tb tid p (r - min r o.amount) rest).1 ≠ [] := by
          intro hnil
          rw [hnil] at htj
          simp at htj
        have hpos : 0 < r - min r o.amount :=
          pos_of_fill_level_trades_ne_nil sym tb tid p _ rest hne
        rcases min_cases r o.amount with ⟨hmin, _⟩ | ⟨hmin, _⟩
        · rw [hmin] at hpos
          linarith
        · simpa using hmin
      | succ i' =>
        obtain ⟨j', rfl⟩ : ∃ j', j = j' + 1 := ⟨j - 1, by omega⟩
        rw [List.getElem?_cons_succ] at htj hti hq
        exact ih (r - min r o.amount) i' j' tj ti oi (by omega) htj hti hq

/-- C4: within one price level of a single match walk, consumption is strict
FIFO, and a resting residual is appended at the tail.  For the per-level loop
`fill_level` of `process_market_order`: (i) at most one trade is emitted per
queued order; (ii) the k-th trade is against the k-th queued order (trades
follow queue order, so an earlier order's volume is consumed before a later
one's); (iii) if a later order received a trade, every earlier order's trade
consumed that order's full amount.  (iv) New resting orders (the residual
insertion of `process_limit_order`) are appended by `entry_push` at the tail
of their price level's FIFO queue. -/
theorem C4_price_time_priority (sym : String) (tb : Bool) (tid : String) (p r : ℚ)
    (qs : List Order) (levels : List (ℚ × List Order)) (q : ℚ) (o : Order)
    (hsorted : List.Pairwise (· < ·) (levels.map Prod.fst)) :
    ((fill_level sym tb tid p r qs).1.length ≤ qs.length) ∧
    (∀ (k : Nat) (t : Trade) (oa : Order),
      ((fill_level sym tb tid p r qs).1)[k]? = some t → qs[k]? = some oa →
      (if tb then t.seller_id else t.buyer_id) = oa.participant_id) ∧
    (∀ (i j : Nat) (tj ti : Trade) (oi : Order), i < j →
      ((fill_level sym tb tid p r qs).1)[j]? = some tj →
      ((fill_level sym tb tid p r qs).1)[i]? = some ti → qs[i]? = some oi →
      ti.volume = oi.amount) ∧
    (lookupA (entry_push levels q o) q = some ((lookupA levels q).getD [] ++ [o])) :=
  ⟨fill_level_length_le sym tb tid p qs r,
   fun k t oa => fill_level_counterparty sym tb tid p qs r k t oa,
   fun i j tj ti oi => fill_level_full_before sym tb tid p qs r i j tj ti oi,
   entry_push_lookupA levels q o hsorted⟩

/-- Looking up the key just inserted by `insertA` returns the new value. -/
theorem lookupA_insertA {κ α : Type} [DecidableEq κ] (l : List (κ × α)) (k : κ) (v : α) :
    lookupA (insertA l k v) k = some v := by
  induction l with
  | nil => simp [insertA, lookupA]
  | cons hd tl ih =>
    by_cases hk : k = hd.1
    · simp [insertA, lookupA, hk]
    · simpa [insertA, lookupA, hk] using ih

/-- `updateA` changes the value stored at an existing key. -/
theorem lookupA_updateA_of_some {κ α : Type} [DecidableEq κ] (l : List (κ × α)) (k : κ)
    (v w : α) (h : lookupA l k = some w) : lookupA (updateA l k v) k = some v := by
  induction l with
  | nil => simp [lookupA] at h
  | cons hd tl ih =>
    by_cases hk : k = hd.1
    · simp [updateA, lookupA, hk]
    · rw [show lookupA (hd :: tl) k = lookupA tl k by simp [lookupA, hk]] at h
      simpa [updateA, lookupA, hk] using ih h

/-- `updateA` leaves other keys untouched. -/
theorem lookupA_updateA_ne {κ α : Type} [DecidableEq κ] (l : List (κ × α)) (k k' : κ)
    (v : α) (h : k' ≠ k) : lookupA (updateA l k v) k' = lookupA l k' := by
  induction l with
  | nil => simp [updateA]
  | cons hd tl ih =>
    by_cases hk : k = hd.1
    · subst hk
      simp [updateA, lookupA, h]
    · by_cases hk' : k' = hd.1
      · simp [updateA, lookupA, hk, hk']
      · simpa [updateA, lookupA, hk, hk'] using ih

/-- Updating a key back to the value it already holds is the identity. -/
theorem updateA_eq_self {κ α : Type} [DecidableEq κ] (l : List (κ × α)) (k : κ) (v : α)
    (h : lookupA l k = some v) : updateA l k v = l := by
  induction l with
  | nil => rfl
  | cons hd tl ih =>
    by_cases hk : k = hd.1
    · rw [show lookupA (hd :: tl) k = some hd.2 by simp [lookupA, hk]] at h
      obtain rfl : hd.2 = v := Option.some_injective _ h
      simp [updateA, hk]
    · rw [show lookupA (hd :: tl) k = lookupA tl k by simp [lookupA, hk]] at h
      simp [updateA, hk, ih h]

/-- `execute_trade` only touches the trade log, the statistics and the
participant balances; books and the active-order index are untouched. -/
theorem execute_trade_frame (e : MarketEngine) (t : Trade) :
    (execute_trade e t).symbols = e.symbols ∧
    (execute_trade e t).active_orders = e.active_orders := by
  constructor <;> simp only [execute_trade] <;> split <;> (try split) <;> rfl

/-- Folding `execute_trade` over a trade list leaves books and the
active-order index untouched. -/
theorem foldl_execute_trade_frame (ts : List Trade) :
    ∀ e : MarketEngine, (ts.foldl execute_trade e).symbols = e.symbols ∧
      (ts.foldl execute_trade e).active_orders = e.active_orders := by
  induction ts with
  | nil => intro e; exact ⟨rfl, rfl⟩
  | cons t rest ih =>
    intro e
    rw [List.foldl_cons]
    refine ⟨?_, ?_⟩
    · rw [(ih (execute_trade e t)).1, (execute_trade_frame e t).1]
    · rw [(ih (execute_trade e t)).2, (execute_trade_frame e t).2]

/-- `Broker::process_order` rewrites only the order's price: id, symbol, side,
amount, timestamp, participant and type are preserved. -/
theorem process_order_preserves (b : Broker) (rng : BrokerRng) (order : Order) :
    (process_order b rng order).id = order.id ∧
    (process_order b rng order).symbol = order.symbol ∧
    (process_order b rng order).side = order.side ∧
    (process_order b rng order).amount = order.amount ∧
    (process_order b rng order).timestamp = order.timestamp ∧
    (process_order b rng order).participant_id = order.participant_id ∧
    (process_order b rng order).order_type = order.order_type := by
  unfold process_order
  split_ifs <;> simp

/-- Unfolding lemma for `fill_level` on a positive remainder, with the
recursive call destructured. -/
theorem fill_level_cons_of_pos (sym : String) (tb : Bool) (tid : String) (p r : ℚ)
    (o : Order) (rest : List Order) (ts : List Trade) (svr : List Order) (rem : ℚ)
    (h : ¬ r ≤ 0) (h1 : fill_level sym tb tid p (r - min r o.amount) rest = (ts, svr, rem)) :
    fill_level sym tb tid p r (o :: rest) =
      (({ id := 0, symbol := sym,
          buyer_id := if tb then tid else o.participant_id,
          seller_id := if tb then o.participant_id else tid,
          price := p, volume := min r o.amount, timestamp := 0,
          trade_type := TradeType.Market } : Trade) :: ts,
       if o.amount - min r o.amount ≤ 0 then svr
       else ({ o with amount := o.amount - min r o.amount } : Order) :: svr,
       rem) := by
  simp only [fill_level, if_neg h, h1]
  split_ifs <;> rfl

/-- Every survivor of a level fill is (a reduced copy of) an order that was
already queued at that level: its id occurs among the input queue's ids. -/
theorem fill_level_survivor_mem (sym : String) (tb : Bool) (tid : String) (p : ℚ)
    (qs : List Order) :
    ∀ (r : ℚ) (s : Order), s ∈ (fill_level sym tb tid p r qs).2.1 →
      ∃ o0 ∈ qs, o0.id = s.id := by
  induction qs with
  | nil =>
    intro r s hs
    rw [show (fill_level sym tb tid p r []).2.1 = [] from rfl] at hs
    simp at hs
  | cons o rest ih =>
    intro r s hs
    by_cases hr : r ≤ 0
    · rw [fill_level_eq_of_nonpos sym tb tid p r o rest hr] at hs
      exact ⟨s, hs, rfl⟩
    · rcases h1 : fill_level sym tb tid p (r - min r o.amount) rest with ⟨ts, svr, rem⟩
      rw [fill_level_cons_of_pos sym tb tid p r o rest ts svr rem hr h1] at hs
      by_cases h2 : o.amount - min r o.amount ≤ 0
      · rw [if_pos h2] at hs
        obtain ⟨o0, ho0, hid⟩ := ih (r - min r o.amount) s (by rw [h1]; exact hs)
        exact ⟨o0, List.mem_cons_of_mem o ho0, hid⟩
      · rw [if_neg h2] at hs
        rcases List.mem_cons.mp hs with h3 | h3
        · exact ⟨o, List.mem_cons_self o rest, by rw [h3]⟩
        · obtain ⟨o0, ho0, hid⟩ := ih (r - min r o.amount) s (by rw [h1]; exact h3)
          exact ⟨o0, List.mem_cons_of_mem o ho0, hid⟩

/-- Unfolding lemma: `walk_levels` on a non-positive remainder leaves the
levels untouched and emits nothing. -/
theorem walk_levels_eq_of_nonpos (sym : String) (tb : Bool) (tid : String) (r p : ℚ)
    (orders : List Order) (rest : List (ℚ × List Order)) (h : r ≤ 0) :
    walk_levels sym tb tid r ((p, orders) :: rest) = ([], (p, orders) :: rest, r) := by
  unfold walk_levels
  rw [if_pos h]

/-- Unfolding lemma for `walk_levels` on a positive remainder, with the level
fill and the recursive call destructured. -/
theorem walk_levels_cons_of_pos (sym : String) (tb : Bool) (tid : String) (r p : ℚ)
    (orders : List Order) (rest : List (ℚ × List Order))
    (ts : List Trade) (svr : List Order) (rem : ℚ)
    (ts2 : List Trade) (lv2 : List (ℚ × List Order)) (rem2 : ℚ) (h : ¬ r ≤ 0)
    (h1 : fill_level sym tb tid p r orders = (ts, svr, rem))
    (h2 : walk_levels sym tb tid rem rest = (ts2, lv2, rem2)) :
    walk_levels sym tb tid r ((p, orders) :: rest) =
      (ts ++ ts2, if svr.isEmpty then lv2 else (p, svr) :: lv2, rem2) := by
  simp only [walk_levels, if_neg h, h1, h2]
  split_ifs <;> rfl

/-- Every order resting on the levels returned by a match walk has the id of
an order that was resting on the input levels. -/
theorem walk_levels_resting_mem (sym : String) (tb : Bool) (tid : String)
    (levels : List (ℚ × List Order)) :
    ∀ (r : ℚ) (pr : ℚ × List Order) (s : Order),
      pr ∈ (walk_levels sym tb tid r levels).2.1 → s ∈ pr.2 →
      ∃ pr0 ∈ levels, ∃ o0 ∈ pr0.2, o0.id = s.id := by
  induction levels with
  | nil =>
    intro r pr s hpr _
    rw [show (walk_levels sym tb tid r []).2.1 = [] from rfl] at hpr
    simp at hpr
  | cons hd rest ih =>
    obtain ⟨p, orders⟩ := hd
    intro r pr s hpr hs
    by_cases hr : r ≤ 0
    · rw [walk_levels_eq_of_nonpos sym tb tid r p orders rest hr] at hpr
      exact ⟨pr, hpr, s, hs, rfl⟩
    · rcases h1 : fill_level sym tb tid p r orders with ⟨ts, svr, rem⟩
      rcases h2 : walk_levels sym tb tid rem rest with ⟨ts2, lv2, rem2⟩
      rw [walk_levels_cons_of_pos sym tb tid r p orders rest ts svr rem ts2 lv2 rem2 hr h1 h2] at hpr
      by_cases h3 : svr.isEmpty
      · rw [if_pos h3] at hpr
        obtain ⟨pr0, hpr0, o0, ho0, hid⟩ := ih rem pr s (by rw [h2]; exact hpr) hs
        exact ⟨pr0, List.mem_cons_of_mem _ hpr0, o0, ho0, hid⟩
      · rw [if_neg h3] at hpr
        rcases List.mem_cons.mp hpr with h4 | h4
        · obtain ⟨o0, ho0, hid⟩ := fill_level_survivor_mem sym tb tid p orders r s
            (by rw [h1]; rw [h4] at hs; exact hs)
          exact ⟨(p, orders), List.mem_cons_self _ _, o0, ho0, hid⟩
        · obtain ⟨pr0, hpr0, o0, ho0, hid⟩ := ih rem pr s (by rw [h2]; exact h4) hs
          exact ⟨pr0, List.mem_cons_of_mem _ hpr0, o0, ho0, hid⟩

/-- A market order never adds to the book: every order resting after
`process_market_order` has the id of an order that was resting before. -/
theorem process_market_order_resting (book : OrderBook) (order : Order) (s : Order)
    (hs : s ∈ orders_of (process_market_order book order).2) :
    ∃ o0 ∈ orders_of book, o0.id = s.id := by
  unfold orders_of at hs ⊢
  cases hside : order.side with
  | Buy =>
    simp only [process_market_order, hside] at hs
    rcases List.mem_append.mp hs with h | h
    · exact ⟨s, List.mem_append_left _ h, rfl⟩
    · obtain ⟨l, hl, hsl⟩ := List.mem_flatten.mp h
      obtain ⟨pr, hpr, rfl⟩ := List.mem_map.mp hl
      obtain ⟨pr0, hpr0, o0, ho0, hid⟩ :=
        walk_levels_resting_mem book.symbol true order.participant_id book.asks
          order.amount pr s hpr hsl
      refine ⟨o0, List.mem_append_right _ ?_, hid⟩
      exact List.mem_flatten.mpr ⟨pr0.2, List.mem_map.mpr ⟨pr0, hpr0, rfl⟩, ho0⟩
  | Sell =>
    simp only [process_market_order, hside] at hs
    rcases List.mem_append.mp hs with h | h
    · obtain ⟨l, hl, hsl⟩ := List.mem_flatten.mp h
      obtain ⟨pr, hpr, rfl⟩ := List.mem_map.mp hl
      rw [List.mem_reverse] at hpr
      obtain ⟨pr0, hpr0, o0, ho0, hid⟩ :=
        walk_levels_resting_mem book.symbol false order.participant_id book.bids.reverse
          order.amount pr s hpr hsl
      rw [List.mem_reverse] at hpr0
      refine ⟨o0, List.mem_append_left _ ?_, hid⟩
      exact List.mem_flatten.mpr ⟨pr0.2, List.mem_map.mpr ⟨pr0, hpr0, rfl⟩, ho0⟩
    · exact ⟨s, List.mem_append_right _ h, rfl⟩

/-- On a non-positive remainder a match walk does nothing at all. -/
theorem walk_levels_nonpos (sym : String) (tb : Bool) (tid : String) (r : ℚ)
    (levels : List (ℚ × List Order)) (h : r ≤ 0) :
    walk_levels sym tb tid r levels = ([], levels, r) := by
  cases levels with
  | nil => rfl
  | cons hd rest =>
    obtain ⟨p, orders⟩ := hd
    exact walk_levels_eq_of_nonpos sym tb tid r p orders rest h

/-- A market order with non-positive amount emits no trades and leaves the
book unchanged. -/
theorem process_market_order_nonpos (book : OrderBook) (order : Order)
    (h : order.amount ≤ 0) : process_market_order book order = (none, book) := by
  cases hside : order.side with
  | Buy =>
    simp only [process_market_order, hside,
      walk_levels_nonpos book.symbol true order.participant_id order.amount book.asks h]
    simp [sum_volumes]
  | Sell =>
    simp only [process_market_order, hside,
      walk_levels_nonpos book.symbol false order.participant_id order.amount book.bids.reverse h]
    simp [sum_volumes]

/-- Anatomy of a successful `place_order`: the returned id is the generated
one, the symbol's book was found, the submitted order is the broker-rewritten
market order with participant "user", the symbol's book is replaced by the
matching result, the order is recorded in the active index, and when no trade
was emitted the trade log, participants and statistics are untouched. -/
theorem place_order_ok_elim (e : MarketEngine) (symbol : String) (side : OrderSide)
    (amount : ℚ) (broker : Broker) (order_id : Nat) (rng : BrokerRng)
    (oid' : Nat) (e' : MarketEngine)
    (h : place_order e symbol side amount broker order_id rng = Except.ok (oid', e')) :
    oid' = order_id ∧
    ∃ (price : ℚ) (book : OrderBook) (adj : Order),
      calculate_order_price e symbol side broker = some price ∧
      lookupA e.symbols symbol = some book ∧
      adj = process_order broker rng
        { id := order_id, symbol := symbol, side := side, amount := amount, price := price,
          timestamp := 0, participant_id := "user", order_type := OrderType.Market } ∧
      e'.symbols = updateA e.symbols symbol (add_order book adj).2 ∧
      e'.active_orders = insertA e.active_orders order_id adj ∧
      ((add_order book adj).1 = none →
        e'.trade_history = e.trade_history ∧ e'.participants = e.participants ∧
        e'.market_stats = e.market_stats) := by
  unfold place_order at h
  cases hcp : calculate_order_price e symbol side broker with
  | none => rw [hcp] at h; exact absurd h (by simp)
  | some price =>
    rw [hcp] at h
    cases hlk : lookupA e.symbols symbol with
    | none =>
      simp only [hlk] at h
      exact absurd h (by simp)
    | some book =>
      simp only [hlk] at h
      rcases hadd : add_order book (process_order broker rng
        { id := order_id, symbol := symbol, side := side, amount := amount, price := price,
          timestamp := 0, participant_id := "user", order_type := OrderType.Market })
        with ⟨topt, book1⟩
      rw [hadd] at h
      cases topt with
      | none =>
        simp only [Except.ok.injEq, Prod.mk.injEq] at h
        obtain ⟨hoid, heng⟩ := h
        refine ⟨hoid.symm, price, book, _, rfl, rfl, rfl, ?_, ?_, ?_⟩
        · rw [← heng, hadd]
        · rw [← heng]
        · intro _
          rw [← heng]
          exact ⟨rfl, rfl, rfl⟩
      | some trades =>
        simp only [Except.ok.injEq, Prod.mk.injEq] at h
        obtain ⟨hoid, heng⟩ := h
        refine ⟨hoid.symm, price, book, _, rfl, rfl, rfl, ?_, ?_, ?_⟩
        · rw [← heng, hadd]
          exact (foldl_execute_trade_frame trades _).1
        · rw [← heng]
          dsimp only
          congr 1
          exact (foldl_execute_trade_frame trades _).2
        · intro hnone
          rw [hadd] at hnone
          exact absurd hnone (by simp)

/-- C9: every order accepted by `place_order` is submitted with
`order_type = Market` and `participant_id = "user"` (the recorded active order
is the broker-rewritten order, whose type and participant are preserved), and
consequently the call never adds a resting order to any book: every order
resting after the call has the id of one resting before. -/
theorem C9_market_user_only (e : MarketEngine) (symbol : String) (side : OrderSide)
    (amount : ℚ) (broker : Broker) (order_id : Nat) (rng : BrokerRng)
    (oid' : Nat) (e' : MarketEngine)
    (h : place_order e symbol side amount broker order_id rng = Except.ok (oid', e')) :
    (∃ adj : Order, lookupA e'.active_orders oid' = some adj ∧
       adj.order_type = OrderType.Market ∧ adj.participant_id = "user") ∧
    (∀ (sym' : String) (book' : OrderBook) (s : Order),
       lookupA e'.symbols sym' = some book' → s ∈ orders_of book' →
       ∃ book0 : OrderBook, lookupA e.symbols sym' = some book0 ∧
         ∃ o0 ∈ orders_of book0, o0.id = s.id) := by
  obtain ⟨hoid, price, book, adj, hcp, hlk, hadj, hsyms, hact, _⟩ :=
    place_order_ok_elim e symbol side amount broker order_id rng oid' e' h
  have hty : adj.order_type = OrderType.Market := by
    rw [hadj]
    exact (process_order_preserves broker rng _).2.2.2.2.2.2
  have hpid : adj.participant_id = "user" := by
    rw [hadj]
    exact (process_order_preserves broker rng _).2.2.2.2.2.1
  constructor
  · refine ⟨adj, ?_, hty, hpid⟩
    rw [hact, hoid]
    exact lookupA_insertA e.active_orders order_id adj
  · intro sym' book' s hb hs
    by_cases hsym : sym' = symbol
    · subst hsym
      rw [hsyms, lookupA_updateA_of_some e.symbols sym' ((add_order book adj).2) book hlk] at hb
      obtain rfl : (add_order book adj).2 = book' := Option.some_injective _ hb
      have hmkt : add_order book adj = process_market_order book adj := by
        unfold add_order
        rw [hty]
      rw [hmkt] at hs
      obtain ⟨o0, ho0, hid⟩ := process_market_order_resting book adj s hs
      exact ⟨book, hlk, o0, ho0, hid⟩
    · rw [hsyms, lookupA_updateA_ne e.symbols symbol sym' _ hsym] at hb
      exact ⟨book', hb, s, hs, rfl⟩

/-- C9 witness: the concrete call `place_order exEngine1 "EURUSD" Buy 1000`
succeeds with result `exEngine9`; the recorded order is Market/"user" and the
(empty) book gained no resting order. -/
theorem C9_market_user_only_witness :
    place_order exEngine1 "EURUSD" OrderSide.Buy 1000 exBroker 11 exRng =
      Except.ok (11, exEngine9) ∧
    ((∃ adj : Order, lookupA exEngine9.active_orders 11 = some adj ∧
        adj.order_type = OrderType.Market ∧ adj.participant_id = "user") ∧
     (∀ (sym' : String) (book' : OrderBook) (s : Order),
        lookupA exEngine9.symbols sym' = some book' → s ∈ orders_of book' →
        ∃ book0 : OrderBook, lookupA exEngine1.symbols sym' = some book0 ∧
          ∃ o0 ∈ orders_of book0, o0.id = s.id)) :=
  ⟨by with_unfolding_all rfl,
   C9_market_user_only exEngine1 "EURUSD" OrderSide.Buy 1000 exBroker 11 exRng 11 exEngine9
     (by with_unfolding_all rfl)⟩

/-- C7 (amended): `place_order` inserts every accepted order into the
active-order index unconditionally — after any successful call the order is
present under its fresh id, regardless of how much of it was filled (and the
core contains no code path that removes it). -/
theorem C7_always_in_active_index (e : MarketEngine) (symbol : String) (side : OrderSide)
    (amount : ℚ) (broker : Broker) (order_id : Nat) (rng : BrokerRng)
    (oid' : Nat) (e' : MarketEngine)
    (h : place_order e symbol side amount broker order_id rng = Except.ok (oid', e')) :
    oid' = order_id ∧
    ∃ adj : Order, lookupA e'.active_orders order_id = some adj ∧ adj.id = order_id := by
  obtain ⟨hoid, price, book, adj, hcp, hlk, hadj, hsyms, hact, _⟩ :=
    place_order_ok_elim e symbol side amount broker order_id rng oid' e' h
  refine ⟨hoid, adj, ?_, ?_⟩
  · rw [hact]
    exact lookupA_insertA e.active_orders order_id adj
  · rw [hadj]
    exact (process_order_preserves broker rng _).1

/-- C7 witness: the fully-filled market buy of `C7_counterexample`
(`exEngine2`, amount 5 against a resting 5-lot ask) returns `exEngine7` and
still leaves the order in the active-order index, via the amended theorem
applied at that input. -/
theorem C7_always_in_active_index_witness :
    place_order exEngine2 "EURUSD" OrderSide.Buy 5 exBroker 42 exRng =
      Except.ok (42, exEngine7) ∧
    (42 = 42 ∧ ∃ adj : Order, lookupA exEngine7.active_orders 42 = some adj ∧ adj.id = 42) :=
  ⟨by with_unfolding_all rfl,
   C7_always_in_active_index exEngine2 "EURUSD" OrderSide.Buy 5 exBroker 42 exRng 42 exEngine7
     (by with_unfolding_all rfl)⟩

/-- C3 (amended): `place_order` performs no amount validation.  For a known
symbol, an order with zero or negative amount is not rejected: the call
returns `Ok` with the fresh order id, no trade is emitted (books, trade log,
participants and statistics are unchanged), and the order — with its
non-positive amount — is recorded in the active-order index. -/
theorem C3_nonpositive_amount_accepted (e : MarketEngine) (symbol : String)
    (side : OrderSide) (amount : ℚ) (broker : Broker) (order_id : Nat) (rng : BrokerRng)
    (book : OrderBook) (hamt : amount ≤ 0) (hsym : lookupA e.symbols symbol = some book) :
    ∃ (e' : MarketEngine) (adj : Order),
      place_order e symbol side amount broker order_id rng = Except.ok (order_id, e') ∧
      e'.symbols = e.symbols ∧
      e'.trade_history = e.trade_history ∧
      e'.participants = e.participants ∧
      e'.market_stats = e.market_stats ∧
      e'.active_orders = insertA e.active_orders order_id adj ∧
      adj.amount = amount := by
  rcases hcp : calculate_order_price e symbol side broker with _ | price
  · exfalso
    unfold calculate_order_price get_orderbook at hcp
    rw [hsym] at hcp
    simp at hcp
  · have hpres := process_order_preserves broker rng
      { id := order_id, symbol := symbol, side := side, amount := amount, price := price,
        timestamp := 0, participant_id := "user", order_type := OrderType.Market }
    have hmkt : add_order book (process_order broker rng
        { id := order_id, symbol := symbol, side := side, amount := amount, price := price,
          timestamp := 0, participant_id := "user", order_type := OrderType.Market }) =
        (none, book) := by
      have hty := hpres.2.2.2.2.2.2
      unfold add_order
      rw [hty]
      refine process_market_order_nonpos book _ ?_
      rw [hpres.2.2.2.1]
      exact hamt
    obtain ⟨adj, hadjdef⟩ : ∃ adj : Order, adj = process_order broker rng
        { id := order_id, symbol := symbol, side := side, amount := amount, price := price,
          timestamp := 0, participant_id := "user", order_type := OrderType.Market } :=
      ⟨_, rfl⟩
    rw [← hadjdef] at hmkt
    obtain ⟨efin, hefin⟩ : ∃ efin : MarketEngine,
        efin =
          { e with
            symbols := updateA e.symbols symbol book,
            active_orders := insertA e.active_orders order_id adj } :=
      ⟨_, rfl⟩
    refine ⟨efin, adj, ?_, ?_, ?_, ?_, ?_, ?_, ?_⟩
    · rw [hefin]
      simp only [place_order, hcp, hsym, ← hadjdef, hmkt]
    · rw [hefin]
      exact updateA_eq_self e.symbols symbol book hsym
    · rw [hefin]
    · rw [hefin]
    · rw [hefin]
    · rw [hefin]
    · rw [hadjdef, hpres.2.2.2.1]

/-- C3 witness: the amended statement at the concrete zero-amount order of
`C3_counterexample` (`exEngine1`, amount 0). -/
theorem C3_nonpositive_amount_accepted_witness :
    (0 : ℚ) ≤ 0 ∧ lookupA exEngine1.symbols "EURUSD" = some exEmptyBook ∧
    (∃ (e' : MarketEngine) (adj : Order),
      place_order exEngine1 "EURUSD" OrderSide.Buy 0 exBroker 7 exRng = Except.ok (7, e') ∧
      e'.symbols = exEngine1.symbols ∧
      e'.trade_history = exEngine1.trade_history ∧
      e'.participants = exEngine1.participants ∧
      e'.market_stats = exEngine1.market_stats ∧
      e'.active_orders = insertA exEngine1.active_orders 7 adj ∧
      adj.amount = 0) :=
  ⟨le_refl 0, by with_unfolding_all rfl,
   C3_nonpositive_amount_accepted exEngine1 "EURUSD" OrderSide.Buy 0 exBroker 7 exRng
     exEmptyBook (le_refl 0) (by with_unfolding_all rfl)⟩

/-- `update_candle_data` touches only the candle history, never the quote
map. -/
theorem update_candle_data_prices (feed : PriceFeed) (symbol : String)
    (old_price new_price : ℚ) (now : Int) (vol_add vol_new : ℚ) :
    (update_candle_data feed symbol old_price new_price now vol_add vol_new).prices =
      feed.prices := by
  unfold update_candle_data
  split
  · rfl
  · split
    · rfl
    · dsimp only
      split_ifs <;> rfl

/-- C6 (amended): after the book-sync stage of `update_from_market` the band
`low_24h ≤ last ≤ high_24h` holds, and after the noise stage `ask - bid`
equals the (positive) per-symbol spread, so `ask ≥ bid` holds after each
update; but the noise stage rescales `last` by `1 + noise` while leaving
`high_24h` and `low_24h` untouched, which is why the band itself can break
(see `C6_counterexample`). -/
theorem C6_spread_and_band (feed : PriceFeed) (symbol : String) (rng : NoiseRng)
    (pd0 pdf : PriceData) (pd : PriceData) (book : OrderBook) (now : Int)
    (h0 : lookupA feed.prices symbol = some pd0)
    (hf : lookupA (add_market_noise feed symbol rng).prices symbol = some pdf) :
    pdf.ask - pdf.bid = calculate_spread symbol ∧
    0 < calculate_spread symbol ∧
    pdf.bid < pdf.ask ∧
    pdf.last = pd0.last * (1 + rng.noise) ∧
    pdf.high_24h = pd0.high_24h ∧
    pdf.low_24h = pd0.low_24h ∧
    (update_symbol_from_book pd book now).low_24h ≤ (update_symbol_from_book pd book now).last ∧
    (update_symbol_from_book pd book now).last ≤ (update_symbol_from_book pd book now).high_24h := by
  have hspread : 0 < calculate_spread symbol := by
    unfold calculate_spread
    split_ifs <;> norm_num
  have hband : (update_symbol_from_book pd book now).low_24h ≤
      (update_symbol_from_book pd book now).last ∧
      (update_symbol_from_book pd book now).last ≤
      (update_symbol_from_book pd book now).high_24h := by
    unfold update_symbol_from_book
    rcases get_best_bid book with _ | bb <;> rcases get_best_ask book with _ | ba <;>
      (dsimp only; split_ifs <;> constructor <;> simp <;> linarith)
  simp only [add_market_noise, h0, update_candle_data_prices] at hf
  rw [lookupA_updateA_of_some _ _ _ _ h0] at hf
  obtain rfl := Option.some_injective _ hf
  rcases lookupA feed.historical_data symbol with _ | history
  · dsimp only
    exact ⟨by ring, hspread, by linarith, rfl, rfl, rfl, hband.1, hband.2⟩
  · dsimp only
    rcases history[history.length - 1440]? with _ | c24 <;> dsimp only <;>
      exact ⟨by ring, hspread, by linarith, rfl, rfl, rfl, hband.1, hband.2⟩

/-- C6 witness: the amended statement at the concrete update of
`C6_counterexample` (`exFeed6` with noise 1/25000 yields `exPdf`). -/
theorem C6_spread_and_band_witness :
    lookupA exFeed6.prices "EURUSD" = some exPd6 ∧
    lookupA (add_market_noise exFeed6 "EURUSD" exNoise).prices "EURUSD" = some exPdf ∧
    (exPdf.ask - exPdf.bid = calculate_spread "EURUSD" ∧
     0 < calculate_spread "EURUSD" ∧
     exPdf.bid < exPdf.ask ∧
     exPdf.last = exPd6.last * (1 + exNoise.noise) ∧
     exPdf.high_24h = exPd6.high_24h ∧
     exPdf.low_24h = exPd6.low_24h ∧
     (update_symbol_from_book exPd6 exEmptyBook 0).low_24h ≤
       (update_symbol_from_book exPd6 exEmptyBook 0).last ∧
     (update_symbol_from_book exPd6 exEmptyBook 0).last ≤
       (update_symbol_from_book exPd6 exEmptyBook 0).high_24h) :=
  ⟨by with_unfolding_all rfl, by with_unfolding_all rfl,
   C6_spread_and_band exFeed6 "EURUSD" exNoise exPd6 exPdf exPd6 exEmptyBook 0
     (by with_unfolding_all rfl) (by with_unfolding_all rfl)⟩

/-- C4 witness: the FIFO statement at the concrete level queue
`[exAskA5, exAskA]` (amounts 5 and 1) filled by a remainder of 12, and the
tail-append statement at the singleton level list. -/
theorem C4_price_time_priority_witness :
    List.Pairwise (· < ·) (([((1 : ℚ), [exAskA])]).map Prod.fst) ∧
    (((fill_level "EURUSD" true "C" 1 12 [exAskA5, exAskA]).1.length ≤
        [exAskA5, exAskA].length) ∧
     (∀ (k : Nat) (t : Trade) (oa : Order),
        ((fill_level "EURUSD" true "C" 1 12 [exAskA5, exAskA]).1)[k]? = some t →
        ([exAskA5, exAskA])[k]? = some oa →
        (if true then t.seller_id else t.buyer_id) = oa.participant_id) ∧
     (∀ (i j : Nat) (tj ti : Trade) (oi : Order), i < j →
        ((fill_level "EURUSD" true "C" 1 12 [exAskA5, exAskA]).1)[j]? = some tj →
        ((fill_level "EURUSD" true "C" 1 12 [exAskA5, exAskA]).1)[i]? = some ti →
        ([exAskA5, exAskA])[i]? = some oi → ti.volume = oi.amount) ∧
     (lookupA (entry_push [((1 : ℚ), [exAskA])] 2 exLimitBuy2) 2 =
        some ((lookupA [((1 : ℚ), [exAskA])] 2).getD [] ++ [exLimitBuy2]))) :=
  ⟨by simp,
   C4_price_time_priority "EURUSD" true "C" 1 12 [exAskA5, exAskA]
     [((1 : ℚ), [exAskA])] 2 exLimitBuy2 (by simp)⟩

/-- Every trade emitted by a level fill executes at that level's price. -/
theorem fill_level_trade_price (sym : String) (tb : Bool) (tid : String) (p : ℚ)
    (qs : List Order) :
    ∀ (r : ℚ) (t : Trade), t ∈ (fill_level sym tb tid p r qs).1 → t.price = p := by
  induction qs with
  | nil =>
    intro r t ht
    rw [show (fill_level sym tb tid p r []).1 = [] from rfl] at ht
    simp at ht
  | cons o rest ih =>
    intro r t ht
    by_cases hr : r ≤ 0
    · rw [fill_level_eq_of_nonpos sym tb tid p r o rest hr] at ht
      simp at ht
    · rw [fill_level_trades_cons sym tb tid p r o rest hr] at ht
      rcases List.mem_cons.mp ht with h | h
      · rw [h]
      · exact ih (r - min r o.amount) t h

/-- Every trade emitted by a match walk executes at the price of one of the
walked levels. -/
theorem walk_levels_trade_price_mem (sym : String) (tb : Bool) (tid : String)
    (levels : List (ℚ × List Order)) :
    ∀ (r : ℚ) (t : Trade), t ∈ (walk_levels sym tb tid r levels).1 →
      t.price ∈ levels.map Prod.fst := by
  induction levels with
  | nil =>
    intro r t ht
    rw [show (walk_levels sym tb tid r []).1 = [] from rfl] at ht
    simp at ht
  | cons hd rest ih =>
    obtain ⟨p, orders⟩ := hd
    intro r t ht
    by_cases hr : r ≤ 0
    · rw [walk_levels_eq_of_nonpos sym tb tid r p orders rest hr] at ht
      simp at ht
    · rcases h1 : fill_level sym tb tid p r orders with ⟨ts, svr, rem⟩
      rcases h2 : walk_levels sym tb tid rem rest with ⟨ts2, lv2, rem2⟩
      rw [walk_levels_cons_of_pos sym tb tid r p orders rest ts svr rem ts2 lv2 rem2 hr h1 h2] at ht
      rcases List.mem_append.mp ht with h | h
      · have hp : t.price = p :=
          fill_level_trade_price sym tb tid p orders r t (by rw [h1]; exact h)
        rw [List.map_cons]
        exact hp ▸ List.mem_cons_self _ _
      · rw [List.map_cons]
        exact List.mem_cons_of_mem _ (ih rem t (by rw [h2]; exact h))

/-- `process_market_order` never returns `some []`. -/
theorem process_market_order_trades_ne_nil (book : OrderBook) (order : Order)
    (ts : List Trade) (h : (process_market_order book order).1 = some ts) : ts ≠ [] := by
  cases hside : order.side <;> simp only [process_market_order, hside] at h <;>
    split_ifs at h with hh
  all_goals
    have heq := Option.some_injective _ h
  all_goals
    rw [← heq]
  all_goals
    simpa using hh

/-- A buy market order leaves the bid side untouched, and each trade it emits
executes at the price of one of the pre-existing ask levels. -/
theorem process_market_order_buy_facts (book : OrderBook) (order : Order)
    (hside : order.side = OrderSide.Buy) :
    (process_market_order book order).2.bids = book.bids ∧
    (∀ t ∈ ((process_market_order book order).1).getD [],
      t.price ∈ book.asks.map Prod.fst) := by
  constructor
  · simp only [process_market_order, hside]
  · intro t ht
    simp only [process_market_order, hside] at ht
    by_cases hh : (walk_levels book.symbol true order.participant_id order.amount book.asks).1.isEmpty
    · rw [if_pos hh] at ht
      simp at ht
    · rw [if_neg hh] at ht
      exact walk_levels_trade_price_mem book.symbol true order.participant_id book.asks
        order.amount t ht

/-- C1 (amended): a marketable buy limit order (price ≥ best ask) is converted
in its entirety into a market order with no cap at the limit price: the trades
returned by `add_order` are exactly the trades of the whole-amount market
conversion, and each of them executes at the price of some pre-existing ask
level — which, as `C1_counterexample` shows, can exceed the order's limit.
The residual amount (original amount minus executed volume), when positive,
rests at the order's limit price at the tail of that price level's FIFO
queue. -/
theorem C1_uncapped_conversion (book : OrderBook) (o : Order) (best_ask : ℚ)
    (hty : o.order_type = OrderType.Limit) (hside : o.side = OrderSide.Buy)
    (hba : get_best_ask book = some best_ask) (hm : best_ask ≤ o.price)
    (hsorted : List.Pairwise (· < ·) (book.bids.map Prod.fst)) :
    (add_order book o).1 =
      (process_market_order book { o with order_type := OrderType.Market }).1 ∧
    (∀ t ∈ ((process_market_order book { o with order_type := OrderType.Market }).1).getD [],
       t.price ∈ book.asks.map Prod.fst) ∧
    (∀ rem : ℚ, rem = o.amount - sum_volumes
        (((process_market_order book { o with order_type := OrderType.Market }).1).getD []) →
      0 < rem →
      lookupA (add_order book o).2.bids o.price =
        some ((lookupA book.bids o.price).getD [] ++ [{ o with amount := rem }])) := by
  have hfacts := process_market_order_buy_facts book { o with order_type := OrderType.Market } hside
  obtain ⟨oid, osym, oside, oamt, opr, ots, opid, otyp⟩ := o
  try dsimp only at hty
  try dsimp only at hside
  try dsimp only at hm
  try dsimp only at hfacts
  try dsimp only
  subst hty
  subst hside
  rcases hpm : process_market_order book
      { id := oid, symbol := osym, side := OrderSide.Buy, amount := oamt, price := opr,
        timestamp := ots, participant_id := opid, order_type := OrderType.Market }
    with ⟨mt, book1⟩
  simp only [hpm] at hfacts ⊢
  try dsimp only at hfacts
  try dsimp only
  have hl : add_order book
      { id := oid, symbol := osym, side := OrderSide.Buy, amount := oamt, price := opr,
        timestamp := ots, participant_id := opid, order_type := OrderType.Limit } =
      process_limit_order book
      { id := oid, symbol := osym, side := OrderSide.Buy, amount := oamt, price := opr,
        timestamp := ots, participant_id := opid, order_type := OrderType.Limit } := rfl
  rw [hl]
  simp only [process_limit_order, hba]
  rw [if_pos hm]
  simp only [hpm]
  try dsimp only
  refine ⟨?_, hfacts.2, ?_⟩
  · cases mt with
    | none => simp
    | some mts =>
      have hne : mts ≠ [] := process_market_order_trades_ne_nil book _ mts (by rw [hpm])
      have hemp : mts.isEmpty = false := by simpa using hne
      simp [hemp]
  · intro rem hrem hres
    subst hrem
    rw [if_pos hres]
    try dsimp only
    rw [hfacts.1]
    exact entry_push_lookupA book.bids opr _ hsorted

/-- C1 witness: the amended statement at the concrete marketable buy limit
order `exLimitBuy2` (limit 2, amount 3) against `exBook2` (single one-lot ask
at price 1), which leaves a residual of 2 resting at price 2. -/
theorem C1_uncapped_conversion_witness :
    exLimitBuy2.order_type = OrderType.Limit ∧
    exLimitBuy2.side = OrderSide.Buy ∧
    get_best_ask exBook2 = some 1 ∧
    (1 : ℚ) ≤ exLimitBuy2.price ∧
    List.Pairwise (· < ·) (exBook2.bids.map Prod.fst) ∧
    ((add_order exBook2 exLimitBuy2).1 =
       (process_market_order exBook2 { exLimitBuy2 with order_type := OrderType.Market }).1 ∧
     (∀ t ∈ ((process_market_order exBook2
          { exLimitBuy2 with order_type := OrderType.Market }).1).getD [],
        t.price ∈ exBook2.asks.map Prod.fst) ∧
     (∀ rem : ℚ, rem = exLimitBuy2.amount - sum_volumes
          (((process_market_order exBook2
            { exLimitBuy2 with order_type := OrderType.Market }).1).getD []) →
       0 < rem →
       lookupA (add_order exBook2 exLimitBuy2).2.bids exLimitBuy2.price =
         some ((lookupA exBook2.bids exLimitBuy2.price).getD [] ++
           [{ exLimitBuy2 with amount := rem }]))) :=
  ⟨rfl, rfl, by with_unfolding_all rfl, by norm_num [exLimitBuy2], by simp [exBook2],
   C1_uncapped_conversion exBook2 exLimitBuy2 1 rfl rfl (by with_unfolding_all rfl)
     (by norm_num [exLimitBuy2]) (by simp [exBook2])⟩
